import Mathlib

/-
Verification of the context-aware subprocess-disambiguation pass in
xonsh/ast.py (function leftmostname and class CtxAwareTransformer).

Shallow embedding notes, keyed to the source:

* Expressions and statements are embedded as inductive types covering the
  node kinds the pass dispatches on; statement lists are their own
  inductive (StmtList) so that the mutual recursion of the walk is
  structural.

* A scope frame (a Python set or the caller's dict, used only through
  membership, add and update) is a list of identifier strings; the scope
  stack keeps Python list order: index 0 first, innermost frame last.

* The helper methods ctxupdate, ctxadd and ctxremove in the source are
  defined WITHOUT a self parameter:

      def ctxadd(value):
          self.contexts[-1].add(value)

  so a call such as self.ctxadd(name) passes the instance as value plus
  one extra positional argument and raises
  TypeError: ctxadd() takes 1 positional argument but 2 were given.
  The embedding models this faithfully: every visitor path that reaches
  one of these calls produces PyErr.typeError.  Only visit_Global (which
  writes self.contexts[1] directly) and visit_Expr (which touches no
  helper) mutate or read the scope stack without crashing.

* The parser collaborator (self.parser.parse) and subproc_line
  (xonsh.tools) are not under src/; they are parameters.  parse returns
  the body of the parsed module (a statement list) or a syntax error;
  visit_Expr catches only SyntaxError, so an empty body makes
  newnode.body[0] raise IndexError, which propagates.

* str.splitlines is modelled as splitting on the newline character,
  which agrees with Python for newline-separated text without a trailing
  newline (the only inputs the theorems use).

* node.lineno is a natural number; the walk reads
  self.lines[node.lineno - 1], modelled with truncated subtraction and
  an explicit IndexError when the index is out of range (real trees have
  1 <= lineno <= number of lines, where the two indexings agree).
-/

namespace XonshAst

/-- Source position carried by every statement node: lineno and
col_offset, as in the Python ast. -/
structure Pos where
  lineno : Nat
  col : Nat

/-- Expression nodes of the host grammar that the pass inspects:
Name, BinOp, Compare, Attribute (attrAccess), Subscript, Starred, Call,
Tuple, List (listE), plus Num and Str as representatives of the
"any other variant" arm of leftmostname. -/
inductive EAst where
  | name (id : String)
  | binOp (left : EAst) (right : EAst)
  | compare (left : EAst) (comparators : List EAst)
  | attrAccess (value : EAst) (attrName : String)
  | subscript (value : EAst)
  | starred (value : EAst)
  | call (func : EAst) (args : List EAst)
  | tuple (elts : List EAst)
  | listE (elts : List EAst)
  | num (n : Int)
  | strE (s : String)

mutual
/-- Statement nodes the transformer dispatches on.  Fields follow the
Python ast _fields order for the parts generic_visit traverses. -/
inductive Stmt where
  | exprStmt (pos : Pos) (value : EAst)
  | assign (pos : Pos) (targets : List EAst) (value : EAst)
  | importName (pos : Pos) (names : List (String × Option String))
  | importFrom (pos : Pos) (names : List (String × Option String))
  | withStmt (pos : Pos) (items : List (EAst × Option EAst)) (body : StmtList)
  | forStmt (pos : Pos) (target : EAst) (iter : EAst) (body : StmtList) (orelse : StmtList)
  | functionDef (pos : Pos) (fname : String) (args : List String) (body : StmtList)
  | classDef (pos : Pos) (cname : String) (body : StmtList)
  | delete (pos : Pos) (targets : List EAst)
  | globalStmt (pos : Pos) (names : List String)
  | ifStmt (pos : Pos) (test : EAst) (body : StmtList) (orelse : StmtList)
  | passStmt (pos : Pos)
/-- A list of statements (a Module body or a compound-statement body),
kept as its own inductive so the walk recurses structurally. -/
inductive StmtList where
  | nil
  | cons (s : Stmt) (rest : StmtList)
end

/-- leftmostname from the source, on expression nodes: "Attempts to find
the first name in the tree."  A pure structural recursion. -/
def leftmostname : EAst → Option String
  | .name i => some i
  | .binOp l _ => leftmostname l
  | .compare l _ => leftmostname l
  | .attrAccess v _ => leftmostname v
  | .subscript v => leftmostname v
  | .starred v => leftmostname v
  | .call f _ => leftmostname f
  | .tuple _ => none
  | .listE _ => none
  | .num _ => none
  | .strE _ => none

/-- leftmostname on statement nodes: the source's isinstance chain sends
an Expr statement to leftmostname of its value and every other statement
kind to the final else arm (None). -/
def leftmostnameS : Stmt → Option String
  | .exprStmt _ v => leftmostname v
  | _ => none

/-- The source position of a statement node. -/
def Stmt.getPos : Stmt → Pos
  | .exprStmt p _ => p
  | .assign p _ _ => p
  | .importName p _ => p
  | .importFrom p _ => p
  | .withStmt p _ _ => p
  | .forStmt p _ _ _ _ => p
  | .functionDef p _ _ _ => p
  | .classDef p _ _ => p
  | .delete p _ => p
  | .globalStmt p _ => p
  | .ifStmt p _ _ _ => p
  | .passStmt p => p

/-- newnode.lineno = node.lineno; newnode.col_offset = node.col_offset:
overwrite the position of a statement node. -/
def Stmt.setPos : Stmt → Pos → Stmt
  | .exprStmt _ v, p => .exprStmt p v
  | .assign _ t v, p => .assign p t v
  | .importName _ ns, p => .importName p ns
  | .importFrom _ ns, p => .importFrom p ns
  | .withStmt _ its b, p => .withStmt p its b
  | .forStmt _ t i b o, p => .forStmt p t i b o
  | .functionDef _ n a b, p => .functionDef p n a b
  | .classDef _ n b, p => .classDef p n b
  | .delete _ t, p => .delete p t
  | .globalStmt _ ns, p => .globalStmt p ns
  | .ifStmt _ t b o, p => .ifStmt p t b o
  | .passStmt _, p => .passStmt p

/-- One scope frame: a set of identifier strings (used only through
membership, add and update). -/
abbrev Ctx := List String

/-- The scope stack self.contexts, in Python list order: index 0 (the
caller's root context) first, the innermost frame last. -/
abbrev Ctxs := List Ctx

/-- set.add: insert an identifier if not already present. -/
def cadd (c : Ctx) (v : String) : Ctx :=
  if v ∈ c then c else c ++ [v]

/-- set.update: insert every identifier of the list. -/
def cupdate (c : Ctx) (vs : List String) : Ctx :=
  vs.foldl cadd c

/-- The scope test of visit_Expr: for ctx in self.contexts[::-1]:
if lname in ctx: inscope = True.  A leftmost name of None is never a
member of a frame, so it always tests unbound. -/
def isBound (ctxs : Ctxs) : Option String → Bool
  | none => false
  | some n => ctxs.any (fun c => decide (n ∈ c))

/-- self.contexts[1].update(node.names) from visit_Global: update the
frame at index 1 ("contexts[1] is the global ctx"); a stack shorter than
two frames would raise IndexError (None result). -/
def updGlobal (ctxs : Ctxs) (names : List String) : Option Ctxs :=
  match ctxs with
  | c0 :: c1 :: rest => some (c0 :: cupdate c1 names :: rest)
  | _ => none

/-- Python exceptions the walk can raise.  typeError: a call to one of
the self-less helper methods ctxadd / ctxupdate / ctxremove.
indexError: self.lines[node.lineno - 1] out of range, newnode.body[0]
on an empty parse result, or self.contexts[1] on a short stack. -/
inductive PyErr where
  | typeError
  | indexError

/-- The parser collaborator: parse(line) returns the body of the parsed
module, or a syntax error. -/
abbrev Parser := String → Except Unit StmtList

/-- Per-run data of the transformer: the parser, the subproc_line text
transform, and self.lines. -/
structure Env where
  parse : Parser
  subprocLine : String → String
  lines : List String

/-- visit_Expr: leave the node alone when its leftmost name is bound in
some frame; otherwise convert the backing source line with subproc_line
and try the parser, taking body[0] of the result and copying the
original position onto it; a SyntaxError keeps the original node. -/
def visitExpr (env : Env) (pos : Pos) (e : EAst) (ctxs : Ctxs) :
    Except PyErr (Stmt × Ctxs) :=
  let node := Stmt.exprStmt pos e
  if isBound ctxs (leftmostnameS node) then .ok (node, ctxs)
  else
    match env.lines[pos.lineno - 1]? with
    | none => .error .indexError
    | some raw =>
      match env.parse (env.subprocLine raw) with
      | .error _ => .ok (node, ctxs)
      | .ok .nil => .error .indexError
      | .ok (.cons s _) => .ok (s.setPos pos, ctxs)

mutual
/-- NodeTransformer.visit on one statement.  Every arm mirrors the
corresponding visit_* method; statement kinds without a visit_* method
(ifStmt, passStmt) get generic_visit.  Arms that reach a call to the
self-less ctxadd / ctxupdate / ctxremove raise typeError at the first
such call, exactly where the source would. -/
def visitStmt (env : Env) (s : Stmt) (ctxs : Ctxs) :
    Except PyErr (Stmt × Ctxs) :=
  match s with
  | .exprStmt pos e => visitExpr env pos e ctxs
  | .assign _ targets _ =>
    -- visit_Assign: the loop body calls self.ctxupdate or self.ctxadd
    -- on the first target, raising TypeError; an empty target list
    -- skips the loop and returns the node (no generic_visit call).
    match targets with
    | [] => .ok (s, ctxs)
    | _ :: _ => .error .typeError
  | .importName _ names =>
    -- visit_Import: self.ctxadd on the first alias raises TypeError.
    match names with
    | [] => .ok (s, ctxs)
    | _ :: _ => .error .typeError
  | .importFrom _ names =>
    -- visit_ImportFrom: identical body to visit_Import.
    match names with
    | [] => .ok (s, ctxs)
    | _ :: _ => .error .typeError
  | .withStmt pos items body =>
    -- visit_With: self.ctxadd raises TypeError at the first item whose
    -- optional_vars is present; otherwise generic_visit recurses into
    -- the items (expressions, unchanged) and the body.
    if items.any (fun it => it.2.isSome) then .error .typeError
    else
      match visitStmts env body ctxs with
      | .error e => .error e
      | .ok (body2, ctxs2) => .ok (.withStmt pos items body2, ctxs2)
  | .forStmt _ _ _ _ _ =>
    -- visit_For: self.ctxupdate / self.ctxadd on the loop target always
    -- runs first and raises TypeError.
    .error .typeError
  | .functionDef _ _ _ _ =>
    -- visit_FunctionDef: self.ctxadd(node.name) runs before the frame
    -- push and raises TypeError.
    .error .typeError
  | .classDef _ _ _ =>
    -- visit_ClassDef: self.ctxadd(node.name) raises TypeError.
    .error .typeError
  | .delete _ targets =>
    -- visit_Delete: self.ctxremove raises TypeError at the first target
    -- that is a Name; non-Name targets are skipped, then generic_visit
    -- walks the target expressions (no statement children, unchanged).
    if targets.any (fun t => match t with | .name _ => true | _ => false) then
      .error .typeError
    else .ok (s, ctxs)
  | .globalStmt _ names =>
    -- visit_Global: self.contexts[1].update(node.names), then
    -- generic_visit (names are plain strings, nothing to walk).
    match updGlobal ctxs names with
    | none => .error .indexError
    | some ctxs2 => .ok (s, ctxs2)
  | .ifStmt pos test body orelse =>
    -- no visit_If method: generic_visit walks test (an expression,
    -- unchanged), then body, then orelse.
    match visitStmts env body ctxs with
    | .error e => .error e
    | .ok (body2, ctxs2) =>
      match visitStmts env orelse ctxs2 with
      | .error e => .error e
      | .ok (orelse2, ctxs3) => .ok (.ifStmt pos test body2 orelse2, ctxs3)
  | .passStmt _ => .ok (s, ctxs)

/-- generic_visit over a statement list: visit each statement in order,
threading the scope stack, replacing each child with the visit result. -/
def visitStmts (env : Env) (ss : StmtList) (ctxs : Ctxs) :
    Except PyErr (StmtList × Ctxs) :=
  match ss with
  | .nil => .ok (.nil, ctxs)
  | .cons s rest =>
    match visitStmt env s ctxs with
    | .error e => .error e
    | .ok (s2, ctxs2) =>
      match visitStmts env rest ctxs2 with
      | .error e => .error e
      | .ok (rest2, ctxs3) => .ok (.cons s2 rest2, ctxs3)
end

/-- str.splitlines, for newline-separated text: accumulate characters of
the current line until a newline. -/
def splitlinesAux : List Char → List Char → List String
  | [], acc => [⟨acc.reverse⟩]
  | c :: cs, acc =>
    if c = '\n' then (⟨acc.reverse⟩ : String) :: splitlinesAux cs []
    else splitlinesAux cs (c :: acc)

/-- input.splitlines() (agrees with Python on text without a trailing
newline, the only inputs used below). -/
def splitlines (s : String) : List String :=
  splitlinesAux s.data []

/-- ctxvisit: build self.lines from the input and self.contexts as
[ctx, set()], visit the module (generic_visit over its body), and
return the transformed body, discarding the walk state. -/
def ctxvisit (P : Parser) (sub : String → String) (input : String)
    (tree : StmtList) (ctx : Ctx) : Except PyErr StmtList :=
  match visitStmts ⟨P, sub, splitlines input⟩ tree [ctx, []] with
  | .error e => .error e
  | .ok (tree2, _) => .ok tree2

/-- A deterministic stand-in parser satisfying the spec's collaborator
contract: every line parses to a one-statement module whose statement is
a subprocess-call expression statement. -/
def parserFix : Parser :=
  fun _ => .ok (.cons (.exprStmt ⟨1, 0⟩ (.call (.name "subproc") [])) .nil)

/-- A stand-in parser that rejects every line with a SyntaxError. -/
def parserFail : Parser := fun _ => .error ()

/-- A stand-in for the subproc_line text transform (a pure transform,
otherwise unconstrained by the spec). -/
def subprocFix : String → String := fun s => s

/-- A walk environment over the one-line source "bar" with the accepting
stand-in parser. -/
def envFix : Env := ⟨parserFix, subprocFix, ["bar"]⟩

/-- A walk environment over the one-line source "bar" with the rejecting
stand-in parser. -/
def envFail : Env := ⟨parserFail, subprocFix, ["bar"]⟩

/-- Membership in a frame after set.add. -/
theorem mem_cadd (c : Ctx) (v w : String) : w ∈ cadd c v ↔ w ∈ c ∨ w = v := by
  unfold cadd
  split
  · rename_i hv
    constructor
    · exact Or.inl
    · rintro (hw | rfl)
      · exact hw
      · exact hv
  · simp

/-- Membership in a frame after set.update. -/
theorem mem_cupdate (vs : List String) (c : Ctx) (w : String) :
    w ∈ cupdate c vs ↔ w ∈ c ∨ w ∈ vs := by
  induction vs generalizing c with
  | nil => simp [cupdate]
  | cons v vs ih =>
    have hstep : cupdate c (v :: vs) = cupdate (cadd c v) vs := rfl
    rw [hstep, ih, mem_cadd]
    simp only [List.mem_cons]
    tauto

/-- A name present in some frame of the stack tests as bound. -/
theorem isBound_of_mem_frame {ctxs : Ctxs} {c : Ctx} {n : String}
    (hc : c ∈ ctxs) (hn : n ∈ c) : isBound ctxs (some n) = true := by
  simp only [isBound, List.any_eq_true, decide_eq_true_eq]
  exact ⟨c, hc, hn⟩

/-- Overwriting a statement's position stores exactly that position. -/
theorem getPos_setPos (s : Stmt) (p : Pos) : (s.setPos p).getPos = p := by
  cases s <;> rfl

/-- C1: refuted by the code as written.  The claim says an identifier
bound by an Assignment (or Import, For, With, FunctionDef, ClassDef)
before an ExpressionStatement leaves that statement unchanged; but
visit_Assign calls self.ctxadd, whose definition lacks a self parameter,
so the bound-method call raises TypeError and the pass aborts before the
ExpressionStatement is ever visited.  Shown on the prefix of Scenario A:
source "x = 1" then bare "x" with empty initial bindings. -/
theorem c1_binding_then_expr_crashes :
    ctxvisit parserFix subprocFix "x = 1\nx"
      (.cons (.assign ⟨1, 0⟩ [.name "x"] (.num 1))
        (.cons (.exprStmt ⟨2, 0⟩ (.name "x")) .nil)) [] = .error .typeError := rfl

/-- C2: an ExpressionStatement whose leftmost name is not bound in any
frame (a none resolution always tests unbound), whose backing source
line exists and whose converted line parses, is replaced by the first
statement of the parse result with the original position copied onto
it. -/
theorem c2_unbound_expr_replaced (env : Env) (pos : Pos) (e : EAst) (ctxs : Ctxs)
    (raw : String) (s : Stmt) (rest : StmtList)
    (hunbound : isBound ctxs (leftmostnameS (.exprStmt pos e)) = false)
    (hline : env.lines[pos.lineno - 1]? = some raw)
    (hparse : env.parse (env.subprocLine raw) = .ok (.cons s rest)) :
    visitStmt env (.exprStmt pos e) ctxs = .ok (s.setPos pos, ctxs)
    ∧ (s.setPos pos).getPos = pos
    ∧ isBound ctxs none = false := by
  refine ⟨?_, getPos_setPos s pos, rfl⟩
  show visitExpr env pos e ctxs = .ok (s.setPos pos, ctxs)
  simp [visitExpr, hunbound, hline, hparse]

/-- Closed instance of C2: unbound "bar" on the one-line source "bar"
is replaced by the stand-in parser's subprocess call at position
(1, 0). -/
theorem c2_unbound_expr_replaced_witness :
    visitStmt envFix (.exprStmt ⟨1, 0⟩ (.name "bar")) [["a"], []] =
      .ok (.exprStmt ⟨1, 0⟩ (.call (.name "subproc") []), [["a"], []])
    ∧ (Stmt.setPos (.exprStmt ⟨1, 0⟩ (.call (.name "subproc") [])) ⟨1, 0⟩).getPos
        = (⟨1, 0⟩ : Pos)
    ∧ isBound [["a"], []] none = false :=
  c2_unbound_expr_replaced envFix ⟨1, 0⟩ (.name "bar") [["a"], []] "bar"
    (.exprStmt ⟨1, 0⟩ (.call (.name "subproc") [])) .nil rfl rfl rfl

/-- C3: the leftmost-name resolver is a pure structural function: the
identifier for Name; the left operand's resolution for BinOp and
Compare; the wrapped value's resolution for Attribute, Subscript,
Starred and the Expr statement wrapper; the callee's resolution for
Call; none for every other variant. -/
theorem c3_leftmostname_resolver :
    (∀ i, leftmostname (.name i) = some i)
  ∧ (∀ l r, leftmostname (.binOp l r) = leftmostname l)
  ∧ (∀ l cs, leftmostname (.compare l cs) = leftmostname l)
  ∧ (∀ v a, leftmostname (.attrAccess v a) = leftmostname v)
  ∧ (∀ v, leftmostname (.subscript v) = leftmostname v)
  ∧ (∀ v, leftmostname (.starred v) = leftmostname v)
  ∧ (∀ p v, leftmostnameS (.exprStmt p v) = leftmostname v)
  ∧ (∀ f args, leftmostname (.call f args) = leftmostname f)
  ∧ (∀ elts, leftmostname (.tuple elts) = none)
  ∧ (∀ elts, leftmostname (.listE elts) = none)
  ∧ (∀ n, leftmostname (.num n) = none)
  ∧ (∀ s, leftmostname (.strE s) = none)
  ∧ (∀ p t v, leftmostnameS (.assign p t v) = none)
  ∧ (∀ p ns, leftmostnameS (.globalStmt p ns) = none) :=
  ⟨fun _ => rfl, fun _ _ => rfl, fun _ _ => rfl, fun _ _ => rfl, fun _ => rfl,
   fun _ => rfl, fun _ _ => rfl, fun _ _ => rfl, fun _ => rfl, fun _ => rfl,
   fun _ => rfl, fun _ => rfl, fun _ _ _ => rfl, fun _ _ => rfl⟩

/-- C4: refuted by the code as written.  The claim describes Scenario C
(a name bound only inside a function body is unbound in a sibling after
the definition, triggering a reparse); but visit_FunctionDef first calls
self.ctxadd(node.name), whose definition lacks a self parameter, so the
call raises TypeError before any frame is pushed or popped.  Shown on
Scenario C itself. -/
theorem c4_functiondef_scenario_crashes :
    ctxvisit parserFix subprocFix "def f():\n    x = 1\n    x\nx"
      (.cons (.functionDef ⟨1, 0⟩ "f" []
          (.cons (.assign ⟨2, 4⟩ [.name "x"] (.num 1))
            (.cons (.exprStmt ⟨3, 4⟩ (.name "x")) .nil)))
        (.cons (.exprStmt ⟨4, 0⟩ (.name "x")) .nil)) [] = .error .typeError := rfl

/-- C5: visiting a GlobalDecl adds all declared names to the frame at
index 1 of the scope stack whatever the current depth, and the added
names test as bound under any later stack that still has those bottom
two frames (in particular after any inner frames have been popped). -/
theorem c5_global_decl_binds_global_frame (env : Env) (pos : Pos)
    (names : List String) (c0 c1 : Ctx) (rest : Ctxs) :
    visitStmt env (.globalStmt pos names) (c0 :: c1 :: rest) =
      .ok (.globalStmt pos names, c0 :: cupdate c1 names :: rest)
    ∧ ∀ n, n ∈ names → ∀ rest2,
        isBound (c0 :: cupdate c1 names :: rest2) (some n) = true := by
  constructor
  · rfl
  · intro n hn rest2
    refine isBound_of_mem_frame (c := cupdate c1 names) ?_ ?_
    · simp
    · exact (mem_cupdate names c1 n).mpr (Or.inr hn)

/-- Closed instance of C5: global g on the stack [ {a}, {} ] lands in the
index-1 frame and then tests bound. -/
theorem c5_global_decl_binds_global_frame_witness :
    visitStmt envFix (.globalStmt ⟨1, 0⟩ ["g"]) [["a"], []] =
      .ok (.globalStmt ⟨1, 0⟩ ["g"], [["a"], ["g"]])
    ∧ isBound [["a"], ["g"]] (some "g") = true :=
  ⟨(c5_global_decl_binds_global_frame envFix ⟨1, 0⟩ ["g"] ["a"] [] []).1,
   (c5_global_decl_binds_global_frame envFix ⟨1, 0⟩ ["g"] ["a"] [] []).2
     "g" (by simp) []⟩

/-- C6: when the reparse of an unbound ExpressionStatement's converted
line raises a syntax error, the error is caught inside visit_Expr, the
original node is returned unchanged, and the visit result is ok, never
an error value. -/
theorem c6_reparse_syntax_error_swallowed (env : Env) (pos : Pos) (e : EAst)
    (ctxs : Ctxs) (raw : String)
    (hunbound : isBound ctxs (leftmostnameS (.exprStmt pos e)) = false)
    (hline : env.lines[pos.lineno - 1]? = some raw)
    (hparse : env.parse (env.subprocLine raw) = .error ()) :
    visitStmt env (.exprStmt pos e) ctxs = .ok (.exprStmt pos e, ctxs) := by
  show visitExpr env pos e ctxs = .ok (.exprStmt pos e, ctxs)
  simp [visitExpr, hunbound, hline, hparse]

/-- Closed instance of C6: the rejecting parser leaves unbound "bar"
untouched with an ok result. -/
theorem c6_reparse_syntax_error_swallowed_witness :
    visitStmt envFail (.exprStmt ⟨1, 0⟩ (.name "bar")) [["a"], []] =
      .ok (.exprStmt ⟨1, 0⟩ (.name "bar"), [["a"], []]) :=
  c6_reparse_syntax_error_swallowed envFail ⟨1, 0⟩ (.name "bar") [["a"], []]
    "bar" rfl rfl rfl

/-- C7: refuted by the code as written.  The claim says deleting an
unbound plain-Name target is a silent no-op; but visit_Delete calls
self.ctxremove(targ.id) for every Name target, and ctxremove's
definition lacks a self parameter, so the call raises TypeError whether
or not the name is bound.  (Non-Name delete targets are indeed skipped
silently.)  Shown on Scenario D: "del x" with x never bound. -/
theorem c7_delete_name_crashes :
    ctxvisit parserFix subprocFix "del x\nx"
      (.cons (.delete ⟨1, 0⟩ [.name "x"])
        (.cons (.exprStmt ⟨2, 0⟩ (.name "x")) .nil)) [] = .error .typeError := rfl

/-- C8: refuted by the code as written.  The claim says visiting an
Assignment binds the leftmost name of each target in the innermost
frame and then recurses into the value; but visit_Assign calls
self.ctxadd / self.ctxupdate on the first target, whose definitions
lack a self parameter, so the visit raises TypeError (and visit_Assign
never calls generic_visit, so it would not recurse into the value even
with the helpers repaired). -/
theorem c8_assign_visit_crashes :
    visitStmt envFix (.assign ⟨1, 0⟩ [.name "x"] (.num 1)) [[], []] =
      .error .typeError := rfl

/-- C10: refuted by the code as written.  The claim reasons about the
frame pushed for a FunctionDef body (parameters unbound, only the
function name bound in the enclosing frame); but visit_FunctionDef
raises TypeError at self.ctxadd(node.name) before pushing any frame, so
the body, parameter list included, is never walked at all. -/
theorem c10_functiondef_param_crashes :
    visitStmt envFix (.functionDef ⟨1, 0⟩ "f" ["y"]
      (.cons (.exprStmt ⟨2, 4⟩ (.name "y")) .nil)) [[], []] =
      .error .typeError := rfl

mutual
/-- Revisiting the result of a successful visit of one statement, from
the same incoming scope stack, reproduces that result, assuming the
parser yields expression-statement replacements (the spec's collaborator
contract). -/
theorem revisitStmt (env : Env)
    (HP : ∀ l out, env.parse l = .ok out →
      ∃ p e rest, out = .cons (.exprStmt p e) rest)
    (s : Stmt) (ctxs : Ctxs) (s2 : Stmt) (ctxs2 : Ctxs)
    (h : visitStmt env s ctxs = .ok (s2, ctxs2)) :
    visitStmt env s2 ctxs = .ok (s2, ctxs2) := by
  have h0 := h
  cases s with
  | exprStmt pos e =>
    simp only [visitStmt, visitExpr] at h
    split at h
    · obtain ⟨h1, h2⟩ := Prod.mk.injEq .. ▸ Except.ok.inj h
      subst h1; subst h2; exact h0
    · rename_i hb
      split at h
      · exact absurd h (by simp)
      · rename_i raw hline
        split at h
        · obtain ⟨h1, h2⟩ := Prod.mk.injEq .. ▸ Except.ok.inj h
          subst h1; subst h2; exact h0
        · exact absurd h (by simp)
        · rename_i sp restp hparse
          obtain ⟨p, e2, rest2, hout⟩ := HP _ _ hparse
          obtain ⟨hs, hr⟩ : sp = .exprStmt p e2 ∧ restp = rest2 := by
            cases hout; exact ⟨rfl, rfl⟩
          subst hs
          obtain ⟨h1, h2⟩ := Prod.mk.injEq .. ▸ Except.ok.inj h
          subst h1; subst h2
          show visitExpr env pos e2 ctxs = .ok (.exprStmt pos e2, ctxs)
          simp only [visitExpr]
          split
          · rfl
          · subst hr
            rw [hline]
            simp only [hparse, Stmt.setPos]
  | assign pos targets value =>
    cases targets with
    | nil =>
      simp only [visitStmt] at h
      obtain ⟨h1, h2⟩ := Prod.mk.injEq .. ▸ Except.ok.inj h
      subst h1; subst h2; exact h0
    | cons t ts => exact absurd h (by simp [visitStmt])
  | importName pos names =>
    cases names with
    | nil =>
      simp only [visitStmt] at h
      obtain ⟨h1, h2⟩ := Prod.mk.injEq .. ▸ Except.ok.inj h
      subst h1; subst h2; exact h0
    | cons n ns => exact absurd h (by simp [visitStmt])
  | importFrom pos names =>
    cases names with
    | nil =>
      simp only [visitStmt] at h
      obtain ⟨h1, h2⟩ := Prod.mk.injEq .. ▸ Except.ok.inj h
      subst h1; subst h2; exact h0
    | cons n ns => exact absurd h (by simp [visitStmt])
  | withStmt pos items body =>
    simp only [visitStmt] at h
    split at h
    · exact absurd h (by simp)
    · rename_i hv
      split at h
      · exact absurd h (by simp)
      · rename_i body2 ctxsB hbody
        obtain ⟨h1, h2⟩ := Prod.mk.injEq .. ▸ Except.ok.inj h
        subst h1; subst h2
        have hb2 := revisitStmts env HP body ctxs body2 ctxsB hbody
        simp only [visitStmt, if_neg hv, hb2]
  | forStmt pos target iter body orelse => exact absurd h (by simp [visitStmt])
  | functionDef pos fname args body => exact absurd h (by simp [visitStmt])
  | classDef pos cname body => exact absurd h (by simp [visitStmt])
  | delete pos targets =>
    simp only [visitStmt] at h
    split at h
    · exact absurd h (by simp)
    · obtain ⟨h1, h2⟩ := Prod.mk.injEq .. ▸ Except.ok.inj h
      subst h1; subst h2; exact h0
  | globalStmt pos names =>
    simp only [visitStmt] at h
    split at h
    · exact absurd h (by simp)
    · obtain ⟨h1, h2⟩ := Prod.mk.injEq .. ▸ Except.ok.inj h
      subst h1; subst h2; exact h0
  | ifStmt pos test body orelse =>
    simp only [visitStmt] at h
    split at h
    · exact absurd h (by simp)
    · rename_i body2 ctxsB hbody
      split at h
      · exact absurd h (by simp)
      · rename_i orelse2 ctxsC horelse
        obtain ⟨h1, h2⟩ := Prod.mk.injEq .. ▸ Except.ok.inj h
        subst h1; subst h2
        have hb2 := revisitStmts env HP body ctxs body2 ctxsB hbody
        have ho2 := revisitStmts env HP orelse ctxsB orelse2 ctxsC horelse
        simp only [visitStmt, hb2, ho2]
  | passStmt pos =>
    simp only [visitStmt] at h
    obtain ⟨h1, h2⟩ := Prod.mk.injEq .. ▸ Except.ok.inj h
    subst h1; subst h2; exact h0

/-- Revisiting the result of a successful visit of a statement list,
from the same incoming scope stack, reproduces that result. -/
theorem revisitStmts (env : Env)
    (HP : ∀ l out, env.parse l = .ok out →
      ∃ p e rest, out = .cons (.exprStmt p e) rest)
    (ss : StmtList) (ctxs : Ctxs) (ss2 : StmtList) (ctxs2 : Ctxs)
    (h : visitStmts env ss ctxs = .ok (ss2, ctxs2)) :
    visitStmts env ss2 ctxs = .ok (ss2, ctxs2) := by
  cases ss with
  | nil =>
    have h0 := h
    simp only [visitStmts] at h
    obtain ⟨h1, h2⟩ := Prod.mk.injEq .. ▸ Except.ok.inj h
    subst h1; subst h2; exact h0
  | cons s rest =>
    simp only [visitStmts] at h
    split at h
    · exact absurd h (by simp)
    · rename_i sA ctxsA hs
      split at h
      · exact absurd h (by simp)
      · rename_i restA ctxsB hrest
        obtain ⟨h1, h2⟩ := Prod.mk.injEq .. ▸ Except.ok.inj h
        subst h1; subst h2
        have hs2 := revisitStmt env HP s ctxs sA ctxsA hs
        have hr2 := revisitStmts env HP rest ctxsA restA ctxsB hrest
        simp only [visitStmts, hs2, hr2]
end

/-- C9: the pass is idempotent.  If a run over a tree completes (returns
ok) and the parser obeys the spec's collaborator contract of producing
expression-statement replacements, then a second run on the returned
tree, with the same parser, source text and initial bindings, returns
that tree unchanged. -/
theorem c9_pass_idempotent (P : Parser) (sub : String → String)
    (input : String) (tree tree2 : StmtList) (ctx : Ctx)
    (HP : ∀ l out, P l = .ok out →
      ∃ p e rest, out = .cons (.exprStmt p e) rest)
    (h : ctxvisit P sub input tree ctx = .ok tree2) :
    ctxvisit P sub input tree2 ctx = .ok tree2 := by
  unfold ctxvisit at h ⊢
  split at h
  · exact absurd h (by simp)
  · rename_i treeB cfin hvisit
    obtain h1 := Except.ok.inj h
    subst h1
    have hr := revisitStmts ⟨P, sub, splitlines input⟩ HP tree [ctx, []]
      treeB cfin hvisit
    rw [hr]

/-- Closed instance of C9: the replacement produced for the one-line
source "bar" is a fixed point of a second run. -/
theorem c9_pass_idempotent_witness :
    ctxvisit parserFix subprocFix "bar"
      (.cons (.exprStmt ⟨1, 0⟩ (.call (.name "subproc") [])) .nil) [] =
    .ok (.cons (.exprStmt ⟨1, 0⟩ (.call (.name "subproc") [])) .nil) :=
  c9_pass_idempotent parserFix subprocFix "bar"
    (.cons (.exprStmt ⟨1, 0⟩ (.name "bar")) .nil)
    (.cons (.exprStmt ⟨1, 0⟩ (.call (.name "subproc") [])) .nil) []
    (by
      intro l out hl
      refine ⟨⟨1, 0⟩, .call (.name "subproc") [], .nil, ?_⟩
      exact (Except.ok.inj hl).symm)
    rfl

end XonshAst
